import Mathlib

/-!
Shallow embedding of the `distilabel-steps-library` record-transformation
units, together with proofs checking the natural-language specification
against the code.

The five units embedded here are:

* `FormatPlaintextChatTranscript.process` (src/distilabel_steps_library/chat/chat_transcript.py)
* `InsertMessage.process`                 (src/distilabel_steps_library/chat/insert_message.py)
* `RewriteMessages.process`               (src/distilabel_steps_library/chat/rewrite_messages.py)
* `DropEmpty.process`                     (src/distilabel_steps_library/drop_empty.py)
* `SaveToJsonl.process`                   (src/distilabel_steps_library/chat/save_to_jsonl.py)

Records are Python dictionaries.  Per the library's wire format a record's
`messages` field holds a list of message dictionaries whose `role` and
`content` values, when the keys are present, are strings; the embedding
types messages accordingly (`Msg` below, `Option` marking key absence).
Other record fields are modelled by the `Value` type: `vNone` is Python's
`None`, `vStr` a string, `vMsgs` a list of messages.
-/

namespace DSL

/-- A chat message dictionary.  `none` means the key is absent from the
Python dict; `some s` means the key is present with string value `s`. -/
structure Msg where
  role : Option String
  content : Option String
deriving DecidableEq, Repr

/-- A record field value: Python `None`, a string, or a list of messages. -/
inductive Value where
  | vNone : Value
  | vStr : String → Value
  | vMsgs : List Msg → Value
deriving DecidableEq, Repr

/-- A record is a Python dict: field name to value, in insertion order,
keys unique. -/
abbrev Record := List (String × Value)

/-- Dictionary lookup `item.get(k)' / `item[k]` (first binding wins). -/
def rget : Record → String → Option Value
  | [], _ => none
  | (k', v) :: rest, k => if k' = k then some v else rget rest k

/-- Dictionary update `item[k] = v`: an existing key keeps its position,
a new key is appended (Python dict insertion-order semantics). -/
def rset : Record → String → Value → Record
  | [], k, v => [(k, v)]
  | (k', v') :: rest, k, v =>
    if k' = k then (k', v) :: rest else (k', v') :: rset rest k v

/-! ### Transcript Formatter

`FormatPlaintextChatTranscript.process` builds, for each item,
`"\n".join(f"{msg['role']}: {msg['content']}" for msg in item["messages"])`
and stores it under `transcript`.  Both `msg['role']` and `msg['content']`
are direct subscripts: a missing key raises `KeyError` (role first, as the
f-string evaluates left to right).  `item["messages"]` is also a direct
subscript: a missing field raises `KeyError`. -/

/-- One line `f"{msg['role']}: {msg['content']}"` of the transcript;
errors report the `KeyError` a missing key raises. -/
def fmtLine (m : Msg) : Except String String :=
  match m.role with
  | none => Except.error "KeyError: role"
  | some r =>
    match m.content with
    | none => Except.error "KeyError: content"
    | some c => Except.ok (r ++ ": " ++ c)

/-- All transcript lines, stopping at the first missing key. -/
def fmtLines : List Msg → Except String (List String)
  | [] => Except.ok []
  | m :: ms =>
    match fmtLine m with
    | Except.error e => Except.error e
    | Except.ok l =>
      match fmtLines ms with
      | Except.error e => Except.error e
      | Except.ok ls => Except.ok (l :: ls)

/-- Python's `sep.join`, embedded at the character level so that the
round-trip with `pyLines` is provable. -/
def pyJoin (sep : Char) (ls : List String) : String :=
  ⟨List.intercalate [sep] (ls.map String.data)⟩

/-- Python's `s.split(sep)` for a one-character separator. -/
def pyLines (sep : Char) (s : String) : List String :=
  (s.data.splitOn sep).map fun l => ⟨l⟩

namespace FormatPlaintextChatTranscript

/-- One item of `FormatPlaintextChatTranscript.process`: join the formatted
messages with newlines and store the result under `transcript`.  A missing
`messages` field raises `KeyError`; a non-list `messages` value fails when
iterated (`TypeError`), except that iterating an empty string vacuously
yields the empty transcript. -/
def processItem (r : Record) : Except String Record :=
  match rget r "messages" with
  | none => Except.error "KeyError: messages"
  | some Value.vNone => Except.error "TypeError: NoneType is not iterable"
  | some (Value.vStr s) =>
    if s.data = [] then Except.ok (rset r "transcript" (Value.vStr ""))
    else Except.error "TypeError: string indices must be integers"
  | some (Value.vMsgs ms) =>
    match fmtLines ms with
    | Except.error e => Except.error e
    | Except.ok ls => Except.ok (rset r "transcript" (Value.vStr (pyJoin '\n' ls)))

/-- The whole generator body for one batch: items are processed in order;
the first per-item failure aborts the invocation before anything is
yielded. -/
def process : List Record → Except String (List Record)
  | [] => Except.ok []
  | r :: rs =>
    match processItem r with
    | Except.error e => Except.error e
    | Except.ok r' =>
      match process rs with
      | Except.error e => Except.error e
      | Except.ok rs' => Except.ok (r' :: rs')

end FormatPlaintextChatTranscript

/-! ### Selective Rewriter

`RewriteMessages.process` walks `item.get("messages", [])`; a message is
eligible when `message.get("role") == self.target_role` and
`self.should_process_fn(message.get("content", ""))` holds.  For an
eligible message it builds
`prompt = f"```{message['content']}```\n\n{self.instructions}"`
(`message['content']` is a direct subscript and raises `KeyError` when the
key is absent), calls `self.llm.generate(prompt)` and assigns the result to
`message["content"]`.  The `generate` capability is modelled as a function
returning `Except String String`: `Except.error` is a raised exception.
Each run result is `(state, prompts passed to generate, optional error)`;
on an error the state holds every mutation applied before the failure,
exactly as the in-place Python mutation leaves the caller's batch. -/

/-- Configuration and capabilities of `RewriteMessages`. -/
structure RewriteCfg where
  instructions : String
  target_role : String
  should_process_fn : String → Bool
  generate : String → Except String String

/-- The prompt `f"```{content}```\n\n{instructions}"`. -/
def mkPrompt (content instr : String) : String :=
  "```" ++ content ++ "```" ++ "\n\n" ++ instr

/-- Eligibility test: `message.get("role") == self.target_role and
self.should_process_fn(message.get("content", ""))`. -/
def eligibleMsg (cfg : RewriteCfg) (m : Msg) : Bool :=
  m.role == some cfg.target_role && cfg.should_process_fn (m.content.getD "")

/-- Processing of one message: the resulting message, the prompts passed to
`generate` (empty or a singleton), and the error if one was raised.  When
`generate` raises, the assignment to `message["content"]` never happens, so
the message is returned unchanged. -/
def rwStep (cfg : RewriteCfg) (m : Msg) : Msg × List String × Option String :=
  if eligibleMsg cfg m then
    match m.content with
    | none => (m, [], some "KeyError: content")
    | some c =>
      let p := mkPrompt c cfg.instructions
      match cfg.generate p with
      | Except.error e => (m, [p], some e)
      | Except.ok g => ({ m with content := some g }, [p], none)
  else (m, [], none)

/-- Processing of a message list, in order, stopping at the first raised
error; messages after the failure point are left as they were. -/
def rwMsgs (cfg : RewriteCfg) : List Msg → List Msg × List String × Option String
  | [] => ([], [], none)
  | m :: ms =>
    match rwStep cfg m with
    | (m', tr, some e) => (m' :: ms, tr, some e)
    | (m', tr, none) =>
      let rest := rwMsgs cfg ms
      (m' :: rest.1, tr ++ rest.2.1, rest.2.2)

namespace RewriteMessages

/-- Processing of one record.  `item.get("messages", [])` defaults to an
empty list, so a record without a `messages` field is passed through
unchanged with no error; a `messages` value that is not a list fails when
iterated (`for message in None` / `.get` on a character), except that the
empty string iterates vacuously. -/
def processItem (cfg : RewriteCfg) (r : Record) :
    Record × List String × Option String :=
  match rget r "messages" with
  | none => (r, [], none)
  | some Value.vNone => (r, [], some "TypeError: NoneType is not iterable")
  | some (Value.vStr s) =>
    if s.data = [] then (r, [], none)
    else (r, [], some "AttributeError: str has no attribute get")
  | some (Value.vMsgs ms) =>
    let res := rwMsgs cfg ms
    (rset r "messages" (Value.vMsgs res.1), res.2.1, res.2.2)

/-- One batch of `RewriteMessages.process`: records in order, stopping at
the first raised error; records after the failure point are untouched. -/
def process (cfg : RewriteCfg) : List Record → List Record × List String × Option String
  | [] => ([], [], none)
  | r :: rs =>
    match processItem cfg r with
    | (r', tr, some e) => (r' :: rs, tr, some e)
    | (r', tr, none) =>
      let rest := process cfg rs
      (r' :: rest.1, tr ++ rest.2.1, rest.2.2)

end RewriteMessages

/-! ### Message Inserter

`InsertMessage.process` reads `item["content"]` (line 99), copies
`item["messages"]` (line 102), inserts the new message into the copy with
Python `list.insert` semantics, and rebinds `item["messages"]` to the copy.
Because the claims speak about list-object identity (the original list
object must not be mutated), lists are modelled through a small heap: a
record's `messages` field holds an index into `Heap`, `.copy()` allocates
a fresh entry, and existing entries are never rewritten.  Per the wire
format, `content` is a string when present. -/

/-- Configuration of `InsertMessage`. -/
structure InsertCfg where
  index : Int
  role : String

/-- The position at which CPython's `list.insert(index, x)` places `x` in a
list of length `n`: a negative index counts from the end, and the result is
clamped into `[0, n]`. -/
def pyInsertIdx (index : Int) (n : Nat) : Nat :=
  let i := if index < 0 then index + n else index
  let i := if i < 0 then 0 else i
  if i > (n : Int) then n else i.toNat

/-- Python `xs.insert(index, a)` as a pure function on the list value. -/
def pyInsert (index : Int) (a : α) (xs : List α) : List α :=
  xs.take (pyInsertIdx index xs.length) ++ a :: xs.drop (pyInsertIdx index xs.length)

/-- A heap of message-list objects; an object is an index into the list,
and allocation appends. -/
abbrev Heap := List (List Msg)

/-- A record as seen by `InsertMessage`: the `content` field (a string
when the key is present), the `messages` field (a reference to a heap list
object when the key is present), and the remaining fields, which the unit
never touches. -/
structure IRec where
  content : Option String
  messagesRef : Option Nat
  extra : List (String × String)
deriving DecidableEq, Repr

namespace InsertMessage

/-- One item of `InsertMessage.process`: build
`{"role": self.role, "content": item["content"]}` (a missing `content`
raises `KeyError` here, before anything is touched), then copy
`item["messages"]` (a missing `messages` raises `KeyError`), insert into
the copy and rebind the field to the copy.  The original list object is
never written. -/
def processItem (cfg : InsertCfg) (h : Heap) (r : IRec) :
    Heap × Except String IRec :=
  match r.content with
  | none => (h, Except.error "KeyError: content")
  | some cs =>
    match r.messagesRef with
    | none => (h, Except.error "KeyError: messages")
    | some ref =>
      match h[ref]? with
      | none => (h, Except.error "invalid list reference")
      | some ms =>
        (h ++ [pyInsert cfg.index ⟨some cfg.role, some cs⟩ ms],
         Except.ok { r with messagesRef := some h.length })

/-- One batch of `InsertMessage.process`: items in order, the first raised
error aborting the invocation before anything is yielded. -/
def process (cfg : InsertCfg) : Heap → List IRec → Heap × Except String (List IRec)
  | h, [] => (h, Except.ok [])
  | h, r :: rs =>
    match processItem cfg h r with
    | (h', Except.error e) => (h', Except.error e)
    | (h', Except.ok r') =>
      match process cfg h' rs with
      | (h'', Except.error e) => (h'', Except.error e)
      | (h'', Except.ok rs') => (h'', Except.ok (r' :: rs'))

end InsertMessage

/-! ### Empty-Row Filter

`DropEmpty.process` keeps an item unless
`any(not str(item[col]).strip() if item[col] is not None else True
     for col in columns_to_check if col in item)`
where `columns_to_check` is `self.columns` when set, else `item.keys()`. -/

/-- Python `repr` of a string (quote characters inside the string are left
as-is; the claims never evaluate this on strings containing quotes). -/
def pyReprStr (s : String) : String := "\x27" ++ s ++ "\x27"

/-- Python `repr` of a message dict. -/
def pyReprMsg (m : Msg) : String :=
  let fields :=
    (match m.role with
     | some r => ["\x27role\x27: " ++ pyReprStr r]
     | none => []) ++
    (match m.content with
     | some c => ["\x27content\x27: " ++ pyReprStr c]
     | none => [])
  "\x7b" ++ String.intercalate ", " fields ++ "\x7d"

/-- Python `str` of a field value. -/
def pyStr : Value → String
  | Value.vNone => "None"
  | Value.vStr s => s
  | Value.vMsgs ms => "[" ++ String.intercalate ", " (ms.map pyReprMsg) ++ "]"

namespace DropEmpty

/-- The check deciding that an item is dropped: some checked column that is
present on the item is `None` or has a whitespace-only string form. -/
def hasEmpty (columns : Option (List String)) (item : Record) : Bool :=
  let columns_to_check :=
    match columns with
    | some cs => cs
    | none => item.map Prod.fst
  columns_to_check.any fun col =>
    match rget item col with
    | none => false
    | some Value.vNone => true
    | some v => (pyStr v).trim == ""

/-- `DropEmpty.process`: keep, in order, the items that have no empty
checked column. -/
def process (columns : Option (List String)) (inputs : List Record) : List Record :=
  inputs.filter fun item => !hasEmpty columns item

end DropEmpty

/-! ### JSONL Writer

`SaveToJsonl.process` opens the target file in mode `"w"` (truncating it),
and for each item with a non-`None` `messages` value writes
`json.dumps({"messages": messages}, ensure_ascii=False) + "\n"`, wrapping a
non-list value in a one-element list; it then yields the batch unchanged. -/

/-- Four lower-case hexadecimal digits of `n`. -/
def hex4 (n : Nat) : String :=
  let ds := Nat.toDigits 16 n
  ⟨List.replicate (4 - ds.length) '0' ++ ds⟩

/-- The escape `json.dumps` applies to one character with
`ensure_ascii=False`: quote, backslash and control characters are escaped,
everything else (including non-ASCII) is written literally. -/
def jsonEscChar (c : Char) : String :=
  if c = '"' then "\\\""
  else if c = '\\' then "\\\\"
  else if c = '\n' then "\\n"
  else if c = '\t' then "\\t"
  else if c = '\r' then "\\r"
  else if c = '\x08' then "\\b"
  else if c = '\x0c' then "\\f"
  else if c.toNat < 32 then "\\u" ++ hex4 c.toNat
  else String.singleton c

/-- A JSON string literal for `s`. -/
def jsonStr (s : String) : String :=
  "\"" ++ String.join (s.data.map jsonEscChar) ++ "\""

/-- The JSON object for one message dict (default `json.dumps` separators,
keys in dict order, absent keys omitted). -/
def jsonMsg (m : Msg) : String :=
  let fields :=
    (match m.role with
     | some r => ["\"role\": " ++ jsonStr r]
     | none => []) ++
    (match m.content with
     | some c => ["\"content\": " ++ jsonStr c]
     | none => [])
  "\x7b" ++ String.intercalate ", " fields ++ "\x7d"

namespace SaveToJsonl

/-- The line written for one item, if any: `item.get("messages")` returning
`None` (key absent, or present with value `None`) is skipped; a non-list
value is wrapped in a one-element list before serialization. -/
def line (item : Record) : Option String :=
  match rget item "messages" with
  | none => none
  | some Value.vNone => none
  | some (Value.vMsgs ms) =>
    some ("\x7b\"messages\": [" ++ String.intercalate ", " (ms.map jsonMsg) ++ "]\x7d")
  | some (Value.vStr s) =>
    some ("\x7b\"messages\": [" ++ jsonStr s ++ "]\x7d")

/-- The write loop: each emitted line is appended to the file followed by a
newline. -/
def writeLoop : String → List Record → String
  | acc, [] => acc
  | acc, r :: rs =>
    match line r with
    | none => writeLoop acc rs
    | some l => writeLoop (acc ++ l ++ "\n") rs

/-- One invocation of `SaveToJsonl.process`: the file is opened in mode
`"w"`, so its previous content is discarded and the result is the freshly
written lines alone; the batch is yielded unchanged. -/
def process (_prevFile : String) (inputs : List Record) : String × List Record :=
  (writeLoop "" inputs, inputs)

end SaveToJsonl

/-! ### Specification-side definitions

The definitions below are written from the specification's words (not from
the code); the theorems compare the embedded code against them. -/

/-- Specification of how one message comes out of the Selective Rewriter:
an ineligible message is unchanged, an eligible one has its content
replaced by the string `generate` returned for the constructed prompt,
its role kept. -/
def MsgRewritten (cfg : RewriteCfg) (m m' : Msg) : Prop :=
  (eligibleMsg cfg m = false → m' = m) ∧
  (eligibleMsg cfg m = true →
    ∃ c g, m.content = some c ∧
      cfg.generate (mkPrompt c cfg.instructions) = Except.ok g ∧
      m' = ⟨m.role, some g⟩)

/-- Specification of how one record comes out of the Selective Rewriter:
fields other than `messages` are untouched, a message list is rewritten
pointwise (`List.Forall₂` forcing equal length and order), and a record
without `messages` is unchanged. -/
def RecordRewritten (cfg : RewriteCfg) (r r' : Record) : Prop :=
  (∀ k, k ≠ "messages" → rget r' k = rget r k) ∧
  (∀ ms, rget r "messages" = some (Value.vMsgs ms) →
    ∃ ms', rget r' "messages" = some (Value.vMsgs ms') ∧
      List.Forall₂ (MsgRewritten cfg) ms ms') ∧
  (rget r "messages" = none → r' = r)

/-- Specification of the prompts sent to `generate` for one message list:
one prompt per eligible message, in message order. -/
def specPromptsOfMsgs (cfg : RewriteCfg) (ms : List Msg) : List String :=
  (ms.filter (eligibleMsg cfg)).map fun m =>
    mkPrompt (m.content.getD "") cfg.instructions

/-- Specification of the prompts sent to `generate` for one batch: record
by record, in batch order. -/
def specPrompts (cfg : RewriteCfg) (batch : List Record) : List String :=
  (batch.map fun r =>
    match rget r "messages" with
    | some (Value.vMsgs ms) => specPromptsOfMsgs cfg ms
    | _ => []).flatten

/-- The effective check-set of the Empty-Row Filter: the configured
columns, or all of the record's fields when unset. -/
def specCheckSet (columns : Option (List String)) (item : Record) : List String :=
  columns.getD (item.map Prod.fst)

/-- A value the specification calls empty: `None`, or a string form that
is empty after trimming leading and trailing whitespace. -/
def specEmptyVal (v : Value) : Prop :=
  v = Value.vNone ∨ (pyStr v).trim = ""

/-- The specification's drop condition: some column of the effective
check-set is present on the record with an empty value; absent columns
are skipped, and an empty check-set drops nothing. -/
def specDropped (columns : Option (List String)) (item : Record) : Prop :=
  ∃ c ∈ specCheckSet columns item, ∃ v, rget item c = some v ∧ specEmptyVal v

/-- The `messages` value a record contributes to the JSONL file, if any:
an absent field, and a field holding `None`, contribute nothing. -/
def keptMessages (item : Record) : Option Value :=
  match rget item "messages" with
  | none => none
  | some Value.vNone => none
  | some v => some v

/-- The JSON array serialized for a `messages` value: a list of messages
is serialized elementwise, a non-list value is wrapped in a one-element
array. -/
def messagesArrayJson : Value → String
  | Value.vMsgs ms => "[" ++ String.intercalate ", " (ms.map jsonMsg) ++ "]"
  | Value.vStr s => "[" ++ jsonStr s ++ "]"
  | Value.vNone => "[null]"

/-- The file content the specification prescribes for one invocation of
the JSONL writer: one newline-terminated line per contributing record, in
batch order. -/
def jsonlContent (inputs : List Record) : String :=
  String.join ((inputs.filterMap keptMessages).map fun v =>
    "\x7b\"messages\": " ++ messagesArrayJson v ++ "\x7d\n")

/-- A concrete Rewriter configuration for evaluating the embedding on
closed inputs: target role `"user"`, predicate accepting contents of at
most two characters, generation prefixing `"G:"` to the prompt. -/
def cfgOk : RewriteCfg :=
  ⟨"Y", "user", fun s => decide (s.length ≤ 2), fun p => Except.ok ("G:" ++ p)⟩

/-- A concrete Rewriter configuration whose generation capability raises
`"boom"` on every prompt. -/
def cfgFail : RewriteCfg :=
  ⟨"Y", "user", fun _ => true, fun _ => Except.error "boom"⟩

/-! ## Lemmas and theorems -/

theorem rget_rset_self (r : Record) (k : String) (v : Value) :
    rget (rset r k v) k = some v := by
  induction r with
  | nil => simp [rget, rset]
  | cons kv rest ih =>
    obtain ⟨k', v'⟩ := kv
    by_cases h : k' = k <;> simp [rget, rset, h, ih]

theorem rget_rset_ne (r : Record) (k k' : String) (v : Value) (h : k' ≠ k) :
    rget (rset r k v) k' = rget r k' := by
  have hkk' : k ≠ k' := fun hh => h hh.symm
  induction r with
  | nil => simp [rget, rset, hkk']
  | cons kv rest ih =>
    obtain ⟨k0, v0⟩ := kv
    by_cases h0 : k0 = k
    · have hk0 : k0 ≠ k' := by rw [h0]; exact hkk'
      simp [rget, rset, h0, hk0, hkk']
    · simp only [rset, if_neg h0]
      by_cases h1 : k0 = k' <;> simp [rget, h1, ih]

theorem pyInsertIdx_le (index : Int) (n : Nat) : pyInsertIdx index n ≤ n := by
  simp only [pyInsertIdx]
  split_ifs <;> omega

theorem pyInsertIdx_nonneg (index : Int) (n : Nat) (h : 0 ≤ index) :
    pyInsertIdx index n = min index.toNat n := by
  simp only [pyInsertIdx]
  split_ifs <;> omega

theorem pyInsertIdx_neg (index : Int) (n : Nat) (h : index < 0) :
    pyInsertIdx index n = (index + n).toNat := by
  simp only [pyInsertIdx]
  split_ifs <;> omega

theorem pyInsert_length (index : Int) (a : α) (xs : List α) :
    (pyInsert index a xs).length = xs.length + 1 := by
  have hle := pyInsertIdx_le index xs.length
  simp [pyInsert]
  omega

theorem pyInsert_getElem? (index : Int) (a : α) (xs : List α) :
    (pyInsert index a xs)[pyInsertIdx index xs.length]? = some a := by
  have hle := pyInsertIdx_le index xs.length
  have hlen : (xs.take (pyInsertIdx index xs.length)).length
      = pyInsertIdx index xs.length := by
    simp [Nat.min_eq_left hle]
  rw [pyInsert, List.getElem?_append_right (by omega), hlen, Nat.sub_self]
  simp

theorem pyInsert_eraseIdx (index : Int) (a : α) (xs : List α) :
    (pyInsert index a xs).eraseIdx (pyInsertIdx index xs.length) = xs := by
  have hle := pyInsertIdx_le index xs.length
  have hlen : (xs.take (pyInsertIdx index xs.length)).length
      = pyInsertIdx index xs.length := by
    simp [Nat.min_eq_left hle]
  rw [pyInsert, List.eraseIdx_eq_take_drop_succ, List.take_left' hlen,
    List.drop_append_eq_append_drop, hlen,
    List.drop_eq_nil_of_le (by omega), Nat.add_sub_cancel_left]
  simp

/-- Claim C7: for every record processed by `InsertMessage`, the output
`messages` has length one greater than the input, contains the new message
with the configured role and the record's `content` value at the position
given by Python list-insertion semantics for the configured `index`
(negative indices counting from the end, out-of-range indices clamped),
preserves all existing messages in their relative order, and is a new list
object, the original list object being left unmodified; all other fields
of the record are untouched. -/
theorem insertMessage_spec (cfg : InsertCfg) (h : Heap) (r : IRec)
    (cs : String) (ref : Nat) (ms : List Msg)
    (hc : r.content = some cs) (hm : r.messagesRef = some ref)
    (hh : h[ref]? = some ms) :
    ∃ h' r', InsertMessage.processItem cfg h r = (h', Except.ok r') ∧
      r'.content = r.content ∧
      r'.extra = r.extra ∧
      r'.messagesRef = some h.length ∧
      r'.messagesRef ≠ r.messagesRef ∧
      (∀ j, j < h.length → h'[j]? = h[j]?) ∧
      h'[h.length]? =
        some (pyInsert cfg.index ⟨some cfg.role, some cs⟩ ms) ∧
      (pyInsert cfg.index (⟨some cfg.role, some cs⟩ : Msg) ms).length
        = ms.length + 1 ∧
      (pyInsert cfg.index (⟨some cfg.role, some cs⟩ : Msg) ms)[
        pyInsertIdx cfg.index ms.length]? = some (⟨some cfg.role, some cs⟩ : Msg) ∧
      (pyInsert cfg.index (⟨some cfg.role, some cs⟩ : Msg) ms).eraseIdx
        (pyInsertIdx cfg.index ms.length) = ms ∧
      (0 ≤ cfg.index → pyInsertIdx cfg.index ms.length
        = min cfg.index.toNat ms.length) ∧
      (cfg.index < 0 → pyInsertIdx cfg.index ms.length
        = (cfg.index + ms.length).toNat) := by
  have href : ref < h.length := by
    by_contra hcon
    rw [List.getElem?_eq_none (by omega)] at hh
    exact Option.noConfusion hh
  refine ⟨h ++ [pyInsert cfg.index ⟨some cfg.role, some cs⟩ ms],
    { r with messagesRef := some h.length }, ?_, rfl, rfl, rfl, ?_, ?_, ?_,
    pyInsert_length cfg.index _ ms, pyInsert_getElem? cfg.index _ ms,
    pyInsert_eraseIdx cfg.index _ ms,
    fun hpos => pyInsertIdx_nonneg cfg.index ms.length hpos,
    fun hneg => pyInsertIdx_neg cfg.index ms.length hneg⟩
  · simp [InsertMessage.processItem, hc, hm, hh]
  · simp only [hm]
    intro hcon
    have := Option.some.inj hcon
    omega
  · intro j hj
    simp [List.getElem?_append, hj]
  · rw [List.getElem?_append_right (le_refl _), Nat.sub_self]
    simp

/-- Witness for C7 at a concrete input: inserting with `index = -1` and
role `"system"` into a two-message list held at heap cell 0. -/
theorem insertMessage_spec_witness :
    (⟨some "Be nice", some 0, [("k", "v")]⟩ : IRec).content = some "Be nice" ∧
    (⟨some "Be nice", some 0, [("k", "v")]⟩ : IRec).messagesRef = some 0 ∧
    ([[⟨some "user", some "Hi"⟩, ⟨some "assistant", some "Hello"⟩]] : Heap)[0]?
      = some [⟨some "user", some "Hi"⟩, ⟨some "assistant", some "Hello"⟩] ∧
    (∃ h' r', InsertMessage.processItem ⟨-1, "system"⟩
        [[⟨some "user", some "Hi"⟩, ⟨some "assistant", some "Hello"⟩]]
        ⟨some "Be nice", some 0, [("k", "v")]⟩ = (h', Except.ok r') ∧
      r'.content = some "Be nice" ∧
      r'.extra = [("k", "v")] ∧
      r'.messagesRef = some 1 ∧
      r'.messagesRef ≠ some 0 ∧
      (∀ j, j < 1 → h'[j]? =
        ([[⟨some "user", some "Hi"⟩, ⟨some "assistant", some "Hello"⟩]] : Heap)[j]?) ∧
      h'[1]? = some (pyInsert (-1) ⟨some "system", some "Be nice"⟩
        [⟨some "user", some "Hi"⟩, ⟨some "assistant", some "Hello"⟩]) ∧
      (pyInsert (-1) (⟨some "system", some "Be nice"⟩ : Msg)
        [⟨some "user", some "Hi"⟩, ⟨some "assistant", some "Hello"⟩]).length = 2 + 1 ∧
      (pyInsert (-1) (⟨some "system", some "Be nice"⟩ : Msg)
        [⟨some "user", some "Hi"⟩, ⟨some "assistant", some "Hello"⟩])[
        pyInsertIdx (-1) 2]? = some (⟨some "system", some "Be nice"⟩ : Msg) ∧
      (pyInsert (-1) (⟨some "system", some "Be nice"⟩ : Msg)
        [⟨some "user", some "Hi"⟩, ⟨some "assistant", some "Hello"⟩]).eraseIdx
        (pyInsertIdx (-1) 2) = [⟨some "user", some "Hi"⟩, ⟨some "assistant", some "Hello"⟩] ∧
      (0 ≤ (-1 : Int) → pyInsertIdx (-1) 2 = min (-1 : Int).toNat 2) ∧
      ((-1 : Int) < 0 → pyInsertIdx (-1) 2 = ((-1 : Int) + (2 : Nat)).toNat)) :=
  ⟨rfl, rfl, rfl,
    insertMessage_spec ⟨-1, "system"⟩
      [[⟨some "user", some "Hi"⟩, ⟨some "assistant", some "Hello"⟩]]
      ⟨some "Be nice", some 0, [("k", "v")]⟩ "Be nice" 0
      [⟨some "user", some "Hi"⟩, ⟨some "assistant", some "Hello"⟩] rfl rfl rfl⟩

/-- Claim C10: a record with `messages` but no `content` makes
`InsertMessage.processItem` fail while constructing the new message,
before anything is mutated: the heap (every message-list object, the
record's original list included) is returned unchanged with the error. -/
theorem insertMessage_missing_content (cfg : InsertCfg) (h : Heap) (r : IRec)
    (hc : r.content = none) :
    InsertMessage.processItem cfg h r = (h, Except.error "KeyError: content") := by
  simp [InsertMessage.processItem, hc]

/-- Witness for C10 at a concrete input: a record holding a message list
at heap cell 0 but no `content` field. -/
theorem insertMessage_missing_content_witness :
    InsertMessage.processItem ⟨0, "system"⟩ [[⟨some "user", some "Hi"⟩]]
        ⟨none, some 0, []⟩
      = ([[⟨some "user", some "Hi"⟩]], Except.error "KeyError: content") :=
  insertMessage_missing_content ⟨0, "system"⟩ [[⟨some "user", some "Hi"⟩]]
    ⟨none, some 0, []⟩ rfl

theorem hasEmpty_iff_specDropped (columns : Option (List String)) (item : Record) :
    DropEmpty.hasEmpty columns item = true ↔ specDropped columns item := by
  have hset : (match columns with
      | some cs => cs
      | none => item.map Prod.fst) = specCheckSet columns item := by
    cases columns <;> rfl
  simp only [DropEmpty.hasEmpty, hset, List.any_eq_true, specDropped]
  constructor
  · rintro ⟨c, hc, hp⟩
    refine ⟨c, hc, ?_⟩
    revert hp
    cases hv : rget item c with
    | none => intro hp; exact absurd hp (by simp)
    | some v =>
      cases v with
      | vNone => intro _; exact ⟨_, rfl, Or.inl rfl⟩
      | vStr s => intro hp; exact ⟨_, rfl, Or.inr (by simpa using hp)⟩
      | vMsgs ms => intro hp; exact ⟨_, rfl, Or.inr (by simpa using hp)⟩
  · rintro ⟨c, hc, v, hv, hemp⟩
    refine ⟨c, hc, ?_⟩
    rw [hv]
    rcases hemp with h | h
    · subst h; rfl
    · cases v with
      | vNone => rfl
      | vStr s => simpa using h
      | vMsgs ms => simpa using h

/-- Claim C8: `DropEmpty` drops a record if and only if some column of the
effective check-set (the configured `columns`, or all of the record's
fields when unset) is present on the record with value `None` or with a
string form that is empty after trimming; columns listed but absent from
the record are skipped, and an empty check-set keeps the record (there is
then no such column); surviving records keep their relative order and are
not otherwise modified (the output is a sublist of the input). -/
theorem dropEmpty_spec :
    (∀ columns item, DropEmpty.hasEmpty columns item = true
        ↔ specDropped columns item) ∧
    (∀ columns inputs item, item ∈ DropEmpty.process columns inputs
        ↔ item ∈ inputs ∧ ¬ specDropped columns item) ∧
    (∀ columns inputs, List.Sublist (DropEmpty.process columns inputs) inputs) := by
  refine ⟨hasEmpty_iff_specDropped, fun columns inputs item => ?_,
    fun columns inputs => List.filter_sublist inputs⟩
  rw [DropEmpty.process, List.mem_filter]
  rw [← hasEmpty_iff_specDropped columns item]
  simp

theorem strJoin_cons (s : String) (ss : List String) :
    String.join (s :: ss) = s ++ String.join ss := by
  rw [String.join_eq, String.join_eq]
  rfl

theorem jsonlLit1 : ("\x7b\"messages\": [" : String) = "\x7b\"messages\": " ++ "[" := rfl

theorem jsonlLit2 : ("]\x7d" : String) = "]" ++ "\x7d" := rfl

theorem jsonlLit3 : ("\x7d\n" : String) = "\x7d" ++ "\n" := rfl

theorem jsonlContent_cons_skip (r : Record) (rs : List Record)
    (h : keptMessages r = none) : jsonlContent (r :: rs) = jsonlContent rs := by
  rw [jsonlContent, List.filterMap_cons, h, jsonlContent]

theorem jsonlContent_cons_keep (r : Record) (rs : List Record) (v : Value)
    (h : keptMessages r = some v) :
    jsonlContent (r :: rs)
      = ("\x7b\"messages\": " ++ messagesArrayJson v ++ "\x7d\n") ++ jsonlContent rs := by
  rw [jsonlContent, List.filterMap_cons, h, List.map_cons, strJoin_cons, jsonlContent]

theorem writeLoop_eq (inputs : List Record) (acc : String) :
    SaveToJsonl.writeLoop acc inputs = acc ++ jsonlContent inputs := by
  induction inputs generalizing acc with
  | nil =>
    rw [SaveToJsonl.writeLoop, jsonlContent]
    rw [show List.filterMap keptMessages ([] : List Record) = [] from rfl]
    rw [show ((List.map (fun v => "\x7b\"messages\": " ++ messagesArrayJson v ++ "\x7d\n")
      ([] : List Value)) : List String) = [] from rfl]
    rw [show String.join ([] : List String) = "" from rfl, String.append_empty]
  | cons r rs ih =>
    cases hv : rget r "messages" with
    | none =>
      rw [SaveToJsonl.writeLoop]
      simp only [SaveToJsonl.line, hv]
      rw [ih, jsonlContent_cons_skip r rs (by simp [keptMessages, hv])]
    | some v =>
      cases v with
      | vNone =>
        rw [SaveToJsonl.writeLoop]
        simp only [SaveToJsonl.line, hv]
        rw [ih, jsonlContent_cons_skip r rs (by simp [keptMessages, hv])]
      | vMsgs ms =>
        rw [SaveToJsonl.writeLoop]
        simp only [SaveToJsonl.line, hv]
        rw [ih, jsonlContent_cons_keep r rs (Value.vMsgs ms) (by simp [keptMessages, hv]),
          messagesArrayJson, jsonlLit1, jsonlLit2, jsonlLit3]
        simp only [String.append_assoc]
      | vStr s =>
        rw [SaveToJsonl.writeLoop]
        simp only [SaveToJsonl.line, hv]
        rw [ih, jsonlContent_cons_keep r rs (Value.vStr s) (by simp [keptMessages, hv]),
          messagesArrayJson, jsonlLit1, jsonlLit2, jsonlLit3]
        simp only [String.append_assoc]

/-- Claim C9 (amended): `SaveToJsonl.process` truncates the target file
and writes, for each record of the batch whose `messages` field is present
and not `None`, one newline-terminated line holding the JSON object with
the single key `"messages"` (wrapping a non-list value in a one-element
list, serializing with non-ASCII characters literal), in batch order; all
other records contribute no line; the result does not depend on the file's
previous content, so a second invocation leaves only the second batch's
lines; the original batch is yielded unchanged. -/
theorem saveToJsonl_spec (prevFile : String) (inputs : List Record) :
    SaveToJsonl.process prevFile inputs = (jsonlContent inputs, inputs) := by
  rw [SaveToJsonl.process, writeLoop_eq]
  rfl

/-- Counterexample to claim C9 as stated: a record whose `messages` field
is present but holds `None` has a `messages` field, yet the code's
`is not None` guard makes it contribute no line — the file comes out
empty instead of holding the line for that record. -/
theorem saveToJsonl_counterexample :
    (SaveToJsonl.process "old" [[("messages", Value.vNone)]]).1 = "" ∧
    (SaveToJsonl.process "old" [[("messages", Value.vNone)]]).1
      ≠ "\x7b\"messages\": [null]\x7d\n" := ⟨rfl, by decide⟩

theorem fmtLines_map_pairs (ps : List (String × String)) :
    fmtLines (ps.map fun p => ⟨some p.1, some p.2⟩)
      = Except.ok (ps.map fun p => p.1 ++ ": " ++ p.2) := by
  induction ps with
  | nil => rfl
  | cons p ps ih => simp [fmtLines, fmtLine, ih]

theorem pyLines_pyJoin (ls : List String) (hne : ls ≠ [])
    (hnl : ∀ l ∈ ls, ¬ '\n' ∈ l.data) :
    pyLines '\n' (pyJoin '\n' ls) = ls := by
  show ((List.intercalate ['\n'] (ls.map String.data)).splitOn '\n').map
      (fun l => (⟨l⟩ : String)) = ls
  rw [List.splitOn_intercalate (ls.map String.data) '\n'
    (fun l hl => by
      rw [List.mem_map] at hl
      obtain ⟨s, hs, rfl⟩ := hl
      exact hnl s hs)
    (by simpa using hne)]
  rw [List.map_map]
  exact List.map_id'' (fun s => rfl) ls

/-- Claim C6 (amended): for every record whose `messages` are `n ≥ 1`
role/content pairs containing no newline character, the Transcript
Formatter sets `transcript` to a string that splits on the newline
character into exactly `n` lines, each `"<role>: <content>"` of the
corresponding input message in original order with no trailing newline,
leaving all other fields untouched; a record with zero messages gets the
empty transcript, which splits into one empty line, not zero lines, and a
newline inside a role or content produces extra lines. -/
theorem formatTranscript_spec :
    (∀ (r : Record) (ps : List (String × String)),
      rget r "messages" = some (Value.vMsgs (ps.map fun p => ⟨some p.1, some p.2⟩)) →
      (∀ p ∈ ps, ¬ '\n' ∈ p.1.data ∧ ¬ '\n' ∈ p.2.data) →
      ps ≠ [] →
      ∃ t, FormatPlaintextChatTranscript.processItem r
          = Except.ok (rset r "transcript" (Value.vStr t)) ∧
        pyLines '\n' t = ps.map (fun p => p.1 ++ ": " ++ p.2) ∧
        (pyLines '\n' t).length = ps.length ∧
        ∀ k, k ≠ "transcript" →
          rget (rset r "transcript" (Value.vStr t)) k = rget r k) ∧
    (∀ r : Record, rget r "messages" = some (Value.vMsgs []) →
      FormatPlaintextChatTranscript.processItem r
          = Except.ok (rset r "transcript" (Value.vStr "")) ∧
      pyLines '\n' "" = [""]) := by
  constructor
  · intro r ps hm hnl hne
    refine ⟨pyJoin '\n' (ps.map fun p => p.1 ++ ": " ++ p.2), ?_, ?_, ?_, ?_⟩
    · simp only [FormatPlaintextChatTranscript.processItem, hm, fmtLines_map_pairs]
    · refine pyLines_pyJoin _ (by simpa using hne) ?_
      intro l hl
      rw [List.mem_map] at hl
      obtain ⟨p, hp, rfl⟩ := hl
      intro hmem
      have hdata : (p.1 ++ ": " ++ p.2).data = p.1.data ++ (": " : String).data ++ p.2.data := rfl
      rw [hdata, List.mem_append, List.mem_append] at hmem
      rcases hmem with (h | h) | h
      · exact (hnl p hp).1 h
      · exact absurd h (by decide)
      · exact (hnl p hp).2 h
    · rw [pyLines_pyJoin _ (by simpa using hne) ?_, List.length_map]
      intro l hl
      rw [List.mem_map] at hl
      obtain ⟨p, hp, rfl⟩ := hl
      intro hmem
      have hdata : (p.1 ++ ": " ++ p.2).data = p.1.data ++ (": " : String).data ++ p.2.data := rfl
      rw [hdata, List.mem_append, List.mem_append] at hmem
      rcases hmem with (h | h) | h
      · exact (hnl p hp).1 h
      · exact absurd h (by decide)
      · exact (hnl p hp).2 h
    · intro k hk
      exact rget_rset_ne r "transcript" k _ hk
  · intro r hm0
    refine ⟨?_, by decide⟩
    rw [FormatPlaintextChatTranscript.processItem, hm0]
    rfl

/-- Counterexample to claim C6 as stated: a one-message record whose
content holds a newline gets a transcript splitting into two lines, not
one; and a zero-message record gets the empty transcript, which splits
into one line, not zero. -/
theorem formatTranscript_counterexample :
    FormatPlaintextChatTranscript.processItem
        [("messages", Value.vMsgs [⟨some "user", some "a\nb"⟩])]
      = Except.ok [("messages", Value.vMsgs [⟨some "user", some "a\nb"⟩]),
          ("transcript", Value.vStr "user: a\nb")] ∧
    (pyLines '\n' "user: a\nb").length = 2 ∧
    FormatPlaintextChatTranscript.processItem [("messages", Value.vMsgs [])]
      = Except.ok [("messages", Value.vMsgs []),
          ("transcript", Value.vStr "")] ∧
    (pyLines '\n' "").length = 1 := by
  refine ⟨rfl, by decide, rfl, by decide⟩

/-- Witness for (the amended) C6 at a concrete input: a two-message
record. -/
theorem formatTranscript_spec_witness :
    ∃ t, FormatPlaintextChatTranscript.processItem
        [("messages", Value.vMsgs [⟨some "user", some "hi"⟩,
          ⟨some "assistant", some "yo"⟩])]
        = Except.ok (rset [("messages", Value.vMsgs [⟨some "user", some "hi"⟩,
            ⟨some "assistant", some "yo"⟩])] "transcript" (Value.vStr t)) ∧
      pyLines '\n' t = [("user", "hi"), ("assistant", "yo")].map
        (fun p => p.1 ++ ": " ++ p.2) ∧
      (pyLines '\n' t).length = ([("user", "hi"), ("assistant", "yo")]
        : List (String × String)).length ∧
      ∀ k, k ≠ "transcript" →
        rget (rset [("messages", Value.vMsgs [⟨some "user", some "hi"⟩,
          ⟨some "assistant", some "yo"⟩])] "transcript" (Value.vStr t)) k
          = rget [("messages", Value.vMsgs [⟨some "user", some "hi"⟩,
            ⟨some "assistant", some "yo"⟩])] k :=
  formatTranscript_spec.1
    [("messages", Value.vMsgs [⟨some "user", some "hi"⟩, ⟨some "assistant", some "yo"⟩])]
    [("user", "hi"), ("assistant", "yo")] rfl (by decide) (by decide)

theorem rwStep_ok (cfg : RewriteCfg) (m m' : Msg) (tr : List String)
    (h : rwStep cfg m = (m', tr, none)) : MsgRewritten cfg m m' := by
  cases he : eligibleMsg cfg m with
  | false =>
    simp only [rwStep, he, Bool.false_eq_true, if_false, Prod.mk.injEq] at h
    exact ⟨fun _ => h.1.symm, fun ht => absurd ht (by simp [he])⟩
  | true =>
    refine ⟨fun hf => absurd hf (by simp [he]), fun _ => ?_⟩
    cases hc : m.content with
    | none =>
      simp only [rwStep, he, if_true, hc, Prod.mk.injEq] at h
      exact absurd h.2.2 (by simp)
    | some c =>
      cases hg : cfg.generate (mkPrompt c cfg.instructions) with
      | error e =>
        simp only [rwStep, he, if_true, hc, hg, Prod.mk.injEq] at h
        exact absurd h.2.2 (by simp)
      | ok g =>
        simp only [rwStep, he, if_true, hc, hg, Prod.mk.injEq] at h
        exact ⟨c, g, rfl, hg, h.1.symm⟩

theorem rwStep_ok_trace (cfg : RewriteCfg) (m m' : Msg) (tr : List String)
    (h : rwStep cfg m = (m', tr, none)) :
    tr = if eligibleMsg cfg m then
      [mkPrompt (m.content.getD "") cfg.instructions] else [] := by
  cases he : eligibleMsg cfg m with
  | false =>
    simp only [rwStep, he, Bool.false_eq_true, if_false, Prod.mk.injEq] at h ⊢
    exact h.2.1.symm
  | true =>
    simp only [if_true]
    cases hc : m.content with
    | none =>
      simp only [rwStep, he, if_true, hc, Prod.mk.injEq] at h
      exact absurd h.2.2 (by simp)
    | some c =>
      cases hg : cfg.generate (mkPrompt c cfg.instructions) with
      | error e =>
        simp only [rwStep, he, if_true, hc, hg, Prod.mk.injEq] at h
        exact absurd h.2.2 (by simp)
      | ok g =>
        simp only [rwStep, he, if_true, hc, hg, Prod.mk.injEq] at h
        rw [← h.2.1]
        rfl

theorem rwMsgs_ok (cfg : RewriteCfg) (ms ms' : List Msg) (tr : List String)
    (h : rwMsgs cfg ms = (ms', tr, none)) :
    List.Forall₂ (MsgRewritten cfg) ms ms' := by
  induction ms generalizing ms' tr with
  | nil =>
    simp only [rwMsgs, Prod.mk.injEq] at h
    rw [← h.1]
    exact List.Forall₂.nil
  | cons m rest ih =>
    rw [rwMsgs] at h
    cases hs : rwStep cfg m with
    | mk m1 tre =>
      obtain ⟨tr1, e1⟩ := tre
      cases e1 with
      | some e =>
        rw [hs] at h
        simp only [Prod.mk.injEq] at h
        exact absurd h.2.2 (by simp)
      | none =>
        rw [hs] at h
        cases hrest : rwMsgs cfg rest with
        | mk ms2 tre2 =>
          obtain ⟨tr2, e2⟩ := tre2
          rw [hrest] at h
          simp only [Prod.mk.injEq] at h
          obtain ⟨h1, h2, h3⟩ := h
          subst h3
          rw [← h1]
          exact List.Forall₂.cons (rwStep_ok cfg m m1 tr1 hs) (ih ms2 tr2 hrest)

theorem specPromptsOfMsgs_cons (cfg : RewriteCfg) (m : Msg) (ms : List Msg) :
    specPromptsOfMsgs cfg (m :: ms)
      = (if eligibleMsg cfg m then
          [mkPrompt (m.content.getD "") cfg.instructions] else [])
        ++ specPromptsOfMsgs cfg ms := by
  rw [specPromptsOfMsgs, List.filter_cons]
  cases he : eligibleMsg cfg m <;> simp [specPromptsOfMsgs, he]

theorem rwMsgs_ok_trace (cfg : RewriteCfg) (ms ms' : List Msg) (tr : List String)
    (h : rwMsgs cfg ms = (ms', tr, none)) :
    tr = specPromptsOfMsgs cfg ms := by
  induction ms generalizing ms' tr with
  | nil =>
    simp only [rwMsgs, Prod.mk.injEq] at h
    rw [← h.2.1]
    rfl
  | cons m rest ih =>
    rw [rwMsgs] at h
    cases hs : rwStep cfg m with
    | mk m1 tre =>
      obtain ⟨tr1, e1⟩ := tre
      cases e1 with
      | some e =>
        rw [hs] at h
        simp only [Prod.mk.injEq] at h
        exact absurd h.2.2 (by simp)
      | none =>
        rw [hs] at h
        cases hrest : rwMsgs cfg rest with
        | mk ms2 tre2 =>
          obtain ⟨tr2, e2⟩ := tre2
          rw [hrest] at h
          simp only [Prod.mk.injEq] at h
          obtain ⟨h1, h2, h3⟩ := h
          subst h3
          rw [specPromptsOfMsgs_cons, ← rwStep_ok_trace cfg m m1 tr1 hs,
            ← ih ms2 tr2 hrest]
          exact h2.symm

theorem processItem_ok (cfg : RewriteCfg) (r r' : Record) (tr : List String)
    (h : RewriteMessages.processItem cfg r = (r', tr, none)) :
    RecordRewritten cfg r r' := by
  rw [RewriteMessages.processItem] at h
  cases hm : rget r "messages" with
  | none =>
    rw [hm] at h
    simp only [Prod.mk.injEq] at h
    refine ⟨fun k _ => by rw [← h.1], fun ms hms => ?_, fun _ => h.1.symm⟩
    rw [hm] at hms
    exact absurd hms (by simp)
  | some v =>
    cases v with
    | vNone =>
      rw [hm] at h
      simp only [Prod.mk.injEq] at h
      exact absurd h.2.2 (by simp)
    | vStr s =>
      rw [hm] at h
      dsimp only at h
      by_cases hs : s.data = []
      · rw [if_pos hs] at h
        simp only [Prod.mk.injEq] at h
        refine ⟨fun k _ => by rw [← h.1], fun ms hms => ?_, fun hn => ?_⟩
        · rw [hm] at hms
          exact absurd hms (by simp)
        · rw [hm] at hn
          exact absurd hn (by simp)
      · rw [if_neg hs] at h
        simp only [Prod.mk.injEq] at h
        exact absurd h.2.2 (by simp)
    | vMsgs ms =>
      rw [hm] at h
      dsimp only at h
      cases hrw : rwMsgs cfg ms with
      | mk ms1 tre =>
        obtain ⟨tr1, e1⟩ := tre
        rw [hrw] at h
        simp only [Prod.mk.injEq] at h
        obtain ⟨h1, h2, h3⟩ := h
        subst h3
        refine ⟨fun k hk => by rw [← h1]; exact rget_rset_ne r "messages" k _ hk,
          fun ms0 hms0 => ?_, fun hn => ?_⟩
        · rw [hm] at hms0
          have hms : ms0 = ms := by
            have := Option.some.inj hms0
            cases this
            rfl
          subst hms
          refine ⟨ms1, by rw [← h1]; exact rget_rset_self r "messages" _, ?_⟩
          exact rwMsgs_ok cfg ms0 ms1 tr1 hrw
        · rw [hm] at hn
          exact absurd hn (by simp)

/-- Claim C1: for every successfully processed batch of the Selective
Rewriter, every message whose role differs from `target_role` or whose
content fails `should_process_fn` is kept exactly; every eligible message
has its content replaced by the string `generate` returned for the
constructed prompt (role kept); and each record keeps its message list
length and order with no messages added or removed (`List.Forall₂`), other
fields untouched. -/
theorem rewriteMessages_selectivity (cfg : RewriteCfg)
    (batch out : List Record) (tr : List String)
    (h : RewriteMessages.process cfg batch = (out, tr, none)) :
    List.Forall₂ (RecordRewritten cfg) batch out := by
  induction batch generalizing out tr with
  | nil =>
    simp only [RewriteMessages.process, Prod.mk.injEq] at h
    rw [← h.1]
    exact List.Forall₂.nil
  | cons r rs ih =>
    rw [RewriteMessages.process] at h
    cases hp : RewriteMessages.processItem cfg r with
    | mk r1 tre =>
      obtain ⟨tr1, e1⟩ := tre
      cases e1 with
      | some e =>
        rw [hp] at h
        simp only [Prod.mk.injEq] at h
        exact absurd h.2.2 (by simp)
      | none =>
        rw [hp] at h
        cases hrest : RewriteMessages.process cfg rs with
        | mk out2 tre2 =>
          obtain ⟨tr2, e2⟩ := tre2
          rw [hrest] at h
          simp only [Prod.mk.injEq] at h
          obtain ⟨h1, h2, h3⟩ := h
          subst h3
          rw [← h1]
          exact List.Forall₂.cons (processItem_ok cfg r r1 tr1 hp)
            (ih out2 tr2 hrest)

/-- Witness for C1 at a concrete input: a one-record batch with one
eligible message (role `"user"`, short content), one wrong-role message
and one predicate-rejected message, plus an unrelated field. -/
theorem rewriteMessages_selectivity_witness :
    RewriteMessages.process cfgOk
        [[("messages", Value.vMsgs [⟨some "user", some "hi"⟩,
            ⟨some "assistant", some "yo"⟩, ⟨some "user", some "long content"⟩]),
          ("x", Value.vStr "1")]]
      = ([[("messages", Value.vMsgs [⟨some "user", some "G:```hi```\n\nY"⟩,
            ⟨some "assistant", some "yo"⟩, ⟨some "user", some "long content"⟩]),
          ("x", Value.vStr "1")]], ["```hi```\n\nY"], none) ∧
    List.Forall₂ (RecordRewritten cfgOk)
      [[("messages", Value.vMsgs [⟨some "user", some "hi"⟩,
          ⟨some "assistant", some "yo"⟩, ⟨some "user", some "long content"⟩]),
        ("x", Value.vStr "1")]]
      [[("messages", Value.vMsgs [⟨some "user", some "G:```hi```\n\nY"⟩,
          ⟨some "assistant", some "yo"⟩, ⟨some "user", some "long content"⟩]),
        ("x", Value.vStr "1")]] :=
  ⟨rfl, rewriteMessages_selectivity cfgOk
    [[("messages", Value.vMsgs [⟨some "user", some "hi"⟩,
        ⟨some "assistant", some "yo"⟩, ⟨some "user", some "long content"⟩]),
      ("x", Value.vStr "1")]]
    [[("messages", Value.vMsgs [⟨some "user", some "G:```hi```\n\nY"⟩,
        ⟨some "assistant", some "yo"⟩, ⟨some "user", some "long content"⟩]),
      ("x", Value.vStr "1")]]
    ["```hi```\n\nY"] rfl⟩

theorem processItem_ok_trace (cfg : RewriteCfg) (r r' : Record)
    (tr : List String)
    (h : RewriteMessages.processItem cfg r = (r', tr, none)) :
    tr = match rget r "messages" with
      | some (Value.vMsgs ms) => specPromptsOfMsgs cfg ms
      | _ => [] := by
  rw [RewriteMessages.processItem] at h
  cases hm : rget r "messages" with
  | none =>
    rw [hm] at h
    simp only [Prod.mk.injEq] at h
    exact h.2.1.symm
  | some v =>
    cases v with
    | vNone =>
      rw [hm] at h
      simp only [Prod.mk.injEq] at h
      exact absurd h.2.2 (by simp)
    | vStr s =>
      rw [hm] at h
      dsimp only at h
      by_cases hs : s.data = []
      · rw [if_pos hs] at h
        simp only [Prod.mk.injEq] at h
        exact h.2.1.symm
      · rw [if_neg hs] at h
        simp only [Prod.mk.injEq] at h
        exact absurd h.2.2 (by simp)
    | vMsgs ms =>
      rw [hm] at h
      dsimp only at h
      cases hrw : rwMsgs cfg ms with
      | mk ms1 tre =>
        obtain ⟨tr1, e1⟩ := tre
        rw [hrw] at h
        simp only [Prod.mk.injEq] at h
        obtain ⟨h1, h2, h3⟩ := h
        subst h3
        exact (h2.symm.trans (rwMsgs_ok_trace cfg ms ms1 tr1 hrw))

theorem specPrompts_cons (cfg : RewriteCfg) (r : Record) (rs : List Record) :
    specPrompts cfg (r :: rs)
      = (match rget r "messages" with
          | some (Value.vMsgs ms) => specPromptsOfMsgs cfg ms
          | _ => []) ++ specPrompts cfg rs := by
  rw [specPrompts, List.map_cons, List.flatten_cons, specPrompts]

/-- Claim C2: on a successfully processed batch the Selective Rewriter's
calls to `generate` are exactly one prompt per eligible message, in
message order within each record and record order within the batch, and
the prompt for content `"X"` under instructions `"Y"` is exactly the
10-character string made of the content in triple backticks, a blank
line, and the instructions. -/
theorem rewriteMessages_prompts (cfg : RewriteCfg)
    (batch out : List Record) (tr : List String)
    (h : RewriteMessages.process cfg batch = (out, tr, none)) :
    tr = specPrompts cfg batch ∧
      mkPrompt "X" "Y" = "```X```\n\nY" ∧ (mkPrompt "X" "Y").length = 10 := by
  refine ⟨?_, rfl, by decide⟩
  induction batch generalizing out tr with
  | nil =>
    simp only [RewriteMessages.process, Prod.mk.injEq] at h
    rw [← h.2.1]
    rfl
  | cons r rs ih =>
    rw [RewriteMessages.process] at h
    cases hp : RewriteMessages.processItem cfg r with
    | mk r1 tre =>
      obtain ⟨tr1, e1⟩ := tre
      cases e1 with
      | some e =>
        rw [hp] at h
        simp only [Prod.mk.injEq] at h
        exact absurd h.2.2 (by simp)
      | none =>
        rw [hp] at h
        cases hrest : RewriteMessages.process cfg rs with
        | mk out2 tre2 =>
          obtain ⟨tr2, e2⟩ := tre2
          rw [hrest] at h
          simp only [Prod.mk.injEq] at h
          obtain ⟨h1, h2, h3⟩ := h
          subst h3
          rw [specPrompts_cons, ← processItem_ok_trace cfg r r1 tr1 hp,
            ← ih out2 tr2 hrest]
          exact h2.symm

/-- Witness for C2 at a concrete input: the batch of the C1 witness; the
single prompt traced is the eligible content in backticks, a blank line,
and the instructions. -/
theorem rewriteMessages_prompts_witness :
    RewriteMessages.process cfgOk
        [[("messages", Value.vMsgs [⟨some "user", some "hi"⟩,
            ⟨some "assistant", some "yo"⟩])]]
      = ([[("messages", Value.vMsgs [⟨some "user", some "G:```hi```\n\nY"⟩,
            ⟨some "assistant", some "yo"⟩])]], ["```hi```\n\nY"], none) ∧
    (["```hi```\n\nY"] = specPrompts cfgOk
        [[("messages", Value.vMsgs [⟨some "user", some "hi"⟩,
            ⟨some "assistant", some "yo"⟩])]] ∧
      mkPrompt "X" "Y" = "```X```\n\nY" ∧ (mkPrompt "X" "Y").length = 10) :=
  ⟨rfl, rewriteMessages_prompts cfgOk
    [[("messages", Value.vMsgs [⟨some "user", some "hi"⟩,
        ⟨some "assistant", some "yo"⟩])]]
    [[("messages", Value.vMsgs [⟨some "user", some "G:```hi```\n\nY"⟩,
        ⟨some "assistant", some "yo"⟩])]]
    ["```hi```\n\nY"] rfl⟩

theorem rwStep_err (cfg : RewriteCfg) (m m' : Msg) (tr : List String)
    (e : String) (h : rwStep cfg m = (m', tr, some e)) :
    m' = m ∧ eligibleMsg cfg m = true := by
  cases he : eligibleMsg cfg m with
  | false =>
    simp only [rwStep, he, Bool.false_eq_true, if_false, Prod.mk.injEq] at h
    exact absurd h.2.2 (by simp)
  | true =>
    refine ⟨?_, rfl⟩
    cases hc : m.content with
    | none =>
      simp only [rwStep, he, if_true, hc, Prod.mk.injEq] at h
      exact h.1.symm
    | some c =>
      cases hg : cfg.generate (mkPrompt c cfg.instructions) with
      | error e1 =>
        simp only [rwStep, he, if_true, hc, hg, Prod.mk.injEq] at h
        exact h.1.symm
      | ok g =>
        simp only [rwStep, he, if_true, hc, hg, Prod.mk.injEq] at h
        exact absurd h.2.2 (by simp)

theorem rwMsgs_err (cfg : RewriteCfg) (ms ms' : List Msg) (tr : List String)
    (e : String) (h : rwMsgs cfg ms = (ms', tr, some e)) :
    ∃ front mf back trf,
      ms = front ++ mf :: back ∧
      ms' = front.map (fun m => (rwStep cfg m).1) ++ mf :: back ∧
      (∀ m ∈ front, (rwStep cfg m).2.2 = none) ∧
      eligibleMsg cfg mf = true ∧
      rwStep cfg mf = (mf, trf, some e) := by
  induction ms generalizing ms' tr with
  | nil =>
    simp only [rwMsgs, Prod.mk.injEq] at h
    exact absurd h.2.2 (by simp)
  | cons m rest ih =>
    rw [rwMsgs] at h
    cases hs : rwStep cfg m with
    | mk m1 tre =>
      obtain ⟨tr1, e1⟩ := tre
      cases e1 with
      | some e1 =>
        rw [hs] at h
        simp only [Prod.mk.injEq] at h
        obtain ⟨h1, h2, h3⟩ := h
        have he1 : e1 = e := Option.some.inj h3
        subst he1
        obtain ⟨hm1, helig⟩ := rwStep_err cfg m m1 tr1 e1 hs
        subst hm1
        refine ⟨[], m1, rest, tr1, rfl, by rw [← h1]; rfl, by simp, helig, hs⟩
      | none =>
        rw [hs] at h
        cases hrest : rwMsgs cfg rest with
        | mk ms2 tre2 =>
          obtain ⟨tr2, e2⟩ := tre2
          rw [hrest] at h
          simp only [Prod.mk.injEq] at h
          obtain ⟨h1, h2, h3⟩ := h
          subst h3
          obtain ⟨front, mf, back, trf, hd1, hd2, hd3, hd4, hd5⟩ :=
            ih ms2 tr2 hrest
          refine ⟨m :: front, mf, back, trf, by rw [hd1]; rfl, ?_, ?_, hd4, hd5⟩
          · rw [← h1, hd2, List.map_cons, hs]
            rfl
          · intro m0 hm0
            rcases List.mem_cons.mp hm0 with h0 | h0
            · subst h0
              rw [hs]
            · exact hd3 m0 h0

theorem process_err (cfg : RewriteCfg) (batch out : List Record)
    (tr : List String) (e : String)
    (h : RewriteMessages.process cfg batch = (out, tr, some e)) :
    ∃ front rf back mid trf,
      batch = front ++ rf :: back ∧
      out = front.map (fun r => (RewriteMessages.processItem cfg r).1)
        ++ mid :: back ∧
      (∀ r ∈ front, (RewriteMessages.processItem cfg r).2.2 = none) ∧
      RewriteMessages.processItem cfg rf = (mid, trf, some e) := by
  induction batch generalizing out tr with
  | nil =>
    simp only [RewriteMessages.process, Prod.mk.injEq] at h
    exact absurd h.2.2 (by simp)
  | cons r rs ih =>
    rw [RewriteMessages.process] at h
    cases hp : RewriteMessages.processItem cfg r with
    | mk r1 tre =>
      obtain ⟨tr1, e1⟩ := tre
      cases e1 with
      | some e1 =>
        rw [hp] at h
        simp only [Prod.mk.injEq] at h
        obtain ⟨h1, h2, h3⟩ := h
        have he1 : e1 = e := Option.some.inj h3
        subst he1
        exact ⟨[], r, rs, r1, tr1, rfl, by rw [← h1]; rfl, by simp, hp⟩
      | none =>
        rw [hp] at h
        cases hrest : RewriteMessages.process cfg rs with
        | mk out2 tre2 =>
          obtain ⟨tr2, e2⟩ := tre2
          rw [hrest] at h
          simp only [Prod.mk.injEq] at h
          obtain ⟨h1, h2, h3⟩ := h
          subst h3
          obtain ⟨front, rf, back, mid, trf, hd1, hd2, hd3, hd4⟩ :=
            ih out2 tr2 hrest
          refine ⟨r :: front, rf, back, mid, trf, by rw [hd1]; rfl, ?_, ?_, hd4⟩
          · rw [← h1, hd2, List.map_cons, hp]
            rfl
          · intro r0 hr0
            rcases List.mem_cons.mp hr0 with h0 | h0
            · subst h0
              rw [hp]
            · exact hd3 r0 h0

/-- Claim C3: when `generate` raises on some eligible message the failure
propagates out of `RewriteMessages.process`, and every replacement already
applied stays applied with no rollback: the records before the failing one
hold their rewritten form, the failing record holds the rewrites of the
messages before the failing message (the failing message and its suffix
unchanged), and the records after it are untouched. -/
theorem rewriteMessages_failure (cfg : RewriteCfg) :
    (∀ batch out tr e, RewriteMessages.process cfg batch = (out, tr, some e) →
      ∃ front rf back mid trf,
        batch = front ++ rf :: back ∧
        out = front.map (fun r => (RewriteMessages.processItem cfg r).1)
          ++ mid :: back ∧
        (∀ r ∈ front, (RewriteMessages.processItem cfg r).2.2 = none) ∧
        RewriteMessages.processItem cfg rf = (mid, trf, some e)) ∧
    (∀ ms ms' tr e, rwMsgs cfg ms = (ms', tr, some e) →
      ∃ front mf back trf,
        ms = front ++ mf :: back ∧
        ms' = front.map (fun m => (rwStep cfg m).1) ++ mf :: back ∧
        (∀ m ∈ front, (rwStep cfg m).2.2 = none) ∧
        eligibleMsg cfg mf = true ∧
        rwStep cfg mf = (mf, trf, some e)) :=
  ⟨process_err cfg, rwMsgs_err cfg⟩

/-- Witness for C3 at a concrete input: with the always-failing generator,
a batch whose first record has no eligible message, whose second record
fails at its eligible message, and whose third record is never reached. -/
theorem rewriteMessages_failure_witness :
    RewriteMessages.process cfgFail
        [[("messages", Value.vMsgs [⟨some "assistant", some "yo"⟩])],
         [("messages", Value.vMsgs [⟨some "user", some "a"⟩])],
         [("q", Value.vStr "3")]]
      = ([[("messages", Value.vMsgs [⟨some "assistant", some "yo"⟩])],
          [("messages", Value.vMsgs [⟨some "user", some "a"⟩])],
          [("q", Value.vStr "3")]], ["```a```\n\nY"], some "boom") ∧
    (∃ front rf back mid trf,
      ([[("messages", Value.vMsgs [⟨some "assistant", some "yo"⟩])],
        [("messages", Value.vMsgs [⟨some "user", some "a"⟩])],
        [("q", Value.vStr "3")]] : List Record) = front ++ rf :: back ∧
      ([[("messages", Value.vMsgs [⟨some "assistant", some "yo"⟩])],
        [("messages", Value.vMsgs [⟨some "user", some "a"⟩])],
        [("q", Value.vStr "3")]] : List Record)
        = front.map (fun r => (RewriteMessages.processItem cfgFail r).1)
          ++ mid :: back ∧
      (∀ r ∈ front, (RewriteMessages.processItem cfgFail r).2.2 = none) ∧
      RewriteMessages.processItem cfgFail rf = (mid, trf, some "boom")) :=
  ⟨rfl, (rewriteMessages_failure cfgFail).1
    [[("messages", Value.vMsgs [⟨some "assistant", some "yo"⟩])],
     [("messages", Value.vMsgs [⟨some "user", some "a"⟩])],
     [("q", Value.vStr "3")]]
    [[("messages", Value.vMsgs [⟨some "assistant", some "yo"⟩])],
     [("messages", Value.vMsgs [⟨some "user", some "a"⟩])],
     [("q", Value.vStr "3")]]
    ["```a```\n\nY"] "boom" rfl⟩

theorem formatter_processItem_no_messages (r : Record)
    (hm : rget r "messages" = none) :
    FormatPlaintextChatTranscript.processItem r
      = Except.error "KeyError: messages" := by
  rw [FormatPlaintextChatTranscript.processItem, hm]

theorem formatter_process_err (b : List Record) (r : Record) (hr : r ∈ b)
    (hm : rget r "messages" = none) :
    ∃ e, FormatPlaintextChatTranscript.process b = Except.error e := by
  induction b with
  | nil => exact absurd hr (List.not_mem_nil r)
  | cons r0 rs ih =>
    rw [FormatPlaintextChatTranscript.process]
    rcases List.mem_cons.mp hr with h0 | h0
    · subst h0
      rw [formatter_processItem_no_messages r hm]
      exact ⟨"KeyError: messages", rfl⟩
    · cases hp : FormatPlaintextChatTranscript.processItem r0 with
      | error e => exact ⟨e, rfl⟩
      | ok r0' =>
        obtain ⟨e, he⟩ := ih h0
        rw [he]
        exact ⟨e, rfl⟩

theorem insert_processItem_err (cfg : InsertCfg) (h : Heap) (r : IRec)
    (hmiss : r.content = none ∨ r.messagesRef = none) :
    ∃ e, InsertMessage.processItem cfg h r = (h, Except.error e) := by
  cases hc : r.content with
  | none => exact ⟨"KeyError: content", by simp [InsertMessage.processItem, hc]⟩
  | some cs =>
    rcases hmiss with hmc | hmr
    · rw [hc] at hmc
      exact absurd hmc (by simp)
    · exact ⟨"KeyError: messages",
        by simp [InsertMessage.processItem, hc, hmr]⟩

theorem insert_process_err (cfg : InsertCfg) (h : Heap) (b : List IRec)
    (r : IRec) (hr : r ∈ b) (hmiss : r.content = none ∨ r.messagesRef = none) :
    ∃ h' e, InsertMessage.process cfg h b = (h', Except.error e) := by
  induction b generalizing h with
  | nil => exact absurd hr (List.not_mem_nil r)
  | cons r0 rs ih =>
    rw [InsertMessage.process]
    rcases List.mem_cons.mp hr with h0 | h0
    · subst h0
      obtain ⟨e, he⟩ := insert_processItem_err cfg h r hmiss
      rw [he]
      exact ⟨h, e, rfl⟩
    · cases hp : InsertMessage.processItem cfg h r0 with
      | mk h1 res =>
        cases res with
        | error e => exact ⟨h1, e, rfl⟩
        | ok r0' =>
          obtain ⟨h', e, he⟩ := ih h1 h0
          dsimp only
          rw [he]
          exact ⟨h', e, rfl⟩

theorem rewriter_processItem_no_messages (cfg : RewriteCfg) (r : Record)
    (hm : rget r "messages" = none) :
    RewriteMessages.processItem cfg r = (r, [], none) := by
  rw [RewriteMessages.processItem, hm]

/-- Claim C4 (amended): the Transcript Formatter's invocation fails with
no output when some record lacks `messages`, and the Message Inserter's
invocation fails with no output when some record lacks `messages` or
`content`; the Selective Rewriter, however, does not fail on a record
lacking `messages`: it treats the field as an empty message list and
passes the record through unchanged. -/
theorem missing_field_failures :
    (∀ (b : List Record) (r : Record), r ∈ b → rget r "messages" = none →
      ∃ e, FormatPlaintextChatTranscript.process b = Except.error e) ∧
    (∀ (cfg : InsertCfg) (h : Heap) (b : List IRec) (r : IRec), r ∈ b →
      r.content = none ∨ r.messagesRef = none →
      ∃ h' e, InsertMessage.process cfg h b = (h', Except.error e)) ∧
    (∀ (cfg : RewriteCfg) (r : Record), rget r "messages" = none →
      RewriteMessages.processItem cfg r = (r, [], none)) :=
  ⟨formatter_process_err, insert_process_err, rewriter_processItem_no_messages⟩

/-- Counterexample to claim C4 as stated: the Selective Rewriter does not
fail on a record without a `messages` field — `item.get("messages", [])`
defaults to an empty list and the record passes through unchanged with no
error. -/
theorem missing_field_counterexample :
    RewriteMessages.process cfgOk [[("x", Value.vStr "1")]]
      = ([[("x", Value.vStr "1")]], [], none) := rfl

/-- Witness for (the amended) C4 at concrete inputs: a messages-less
record for the Formatter, a content-less record for the Inserter, a
messages-less record for the Rewriter. -/
theorem missing_field_failures_witness :
    ([("a", Value.vStr "1")] : Record) ∈ [[("a", Value.vStr "1")]] ∧
    rget [("a", Value.vStr "1")] "messages" = none ∧
    (∃ e, FormatPlaintextChatTranscript.process [[("a", Value.vStr "1")]]
      = Except.error e) ∧
    (⟨none, some 0, []⟩ : IRec) ∈ [(⟨none, some 0, []⟩ : IRec)] ∧
    (∃ h' e, InsertMessage.process ⟨0, "system"⟩ [[]] [⟨none, some 0, []⟩]
      = (h', Except.error e)) ∧
    RewriteMessages.processItem cfgOk [("x", Value.vStr "1")]
      = ([("x", Value.vStr "1")], [], none) :=
  ⟨by simp, rfl,
    missing_field_failures.1 [[("a", Value.vStr "1")]] [("a", Value.vStr "1")]
      (by simp) rfl,
    by simp,
    missing_field_failures.2.1 ⟨0, "system"⟩ [[]] [⟨none, some 0, []⟩]
      ⟨none, some 0, []⟩ (by simp) (Or.inl rfl),
    missing_field_failures.2.2 cfgOk [("x", Value.vStr "1")] rfl⟩

theorem fmtLine_bad (m : Msg) (hbad : m.role = none ∨ m.content = none) :
    ∃ e, fmtLine m = Except.error e := by
  cases hr : m.role with
  | none => exact ⟨"KeyError: role", by simp [fmtLine, hr]⟩
  | some rl =>
    rcases hbad with hb | hb
    · rw [hr] at hb
      exact absurd hb (by simp)
    · exact ⟨"KeyError: content", by simp [fmtLine, hr, hb]⟩

theorem fmtLines_err (ms : List Msg)
    (hbad : ∃ m ∈ ms, m.role = none ∨ m.content = none) :
    ∃ e, fmtLines ms = Except.error e := by
  induction ms with
  | nil =>
    obtain ⟨m, hm, -⟩ := hbad
    exact absurd hm (List.not_mem_nil m)
  | cons m0 rest ih =>
    obtain ⟨m, hm, hb⟩ := hbad
    rw [fmtLines]
    rcases List.mem_cons.mp hm with h0 | h0
    · subst h0
      obtain ⟨e, he⟩ := fmtLine_bad m hb
      rw [he]
      exact ⟨e, rfl⟩
    · cases hf : fmtLine m0 with
      | error e => exact ⟨e, rfl⟩
      | ok l =>
        obtain ⟨e, he⟩ := ih ⟨m, h0, hb⟩
        rw [he]
        exact ⟨e, rfl⟩

/-- Claim C5 (amended): in the Selective Rewriter a message with an absent
`role` key is never selected and passes through untouched, and an absent
`content` key is read as the empty string by the eligibility predicate —
but an eligible message with absent `content` fails at prompt
construction (`message['content']`), and the Transcript Formatter fails
(`KeyError`) on any message lacking `role` or `content` rather than
reading the empty string. -/
theorem malformed_message_handling :
    (∀ (cfg : RewriteCfg) (m : Msg), m.role = none →
      rwStep cfg m = (m, [], none)) ∧
    (∀ (cfg : RewriteCfg) (m : Msg), m.content = none →
      eligibleMsg cfg m
        = (m.role == some cfg.target_role && cfg.should_process_fn "")) ∧
    (∀ (cfg : RewriteCfg) (m : Msg), m.content = none →
      eligibleMsg cfg m = true →
      rwStep cfg m = (m, [], some "KeyError: content")) ∧
    (∀ (cfg : RewriteCfg) (m : Msg), m.content = none →
      eligibleMsg cfg m = false →
      rwStep cfg m = (m, [], none)) ∧
    (∀ (r : Record) (ms : List Msg),
      rget r "messages" = some (Value.vMsgs ms) →
      (∃ m ∈ ms, m.role = none ∨ m.content = none) →
      ∃ e, FormatPlaintextChatTranscript.processItem r = Except.error e) := by
  refine ⟨?_, ?_, ?_, ?_, ?_⟩
  · intro cfg m hr
    simp [rwStep, eligibleMsg, hr]
  · intro cfg m hc
    rw [eligibleMsg, hc]
    rfl
  · intro cfg m hc he
    simp [rwStep, he, hc]
  · intro cfg m hc he
    simp [rwStep, he]
  · intro r ms hm hbad
    obtain ⟨e, he⟩ := fmtLines_err ms hbad
    refine ⟨e, ?_⟩
    rw [FormatPlaintextChatTranscript.processItem, hm]
    dsimp only
    rw [he]

/-- Counterexample to claim C5 as stated: in the Transcript Formatter a
message with an absent `content` key raises `KeyError` instead of being
read as the empty string. -/
theorem malformed_message_counterexample :
    FormatPlaintextChatTranscript.processItem
        [("messages", Value.vMsgs [⟨some "user", none⟩])]
      = Except.error "KeyError: content" := rfl

/-- Witness for (the amended) C5 at concrete inputs: a role-less message
and a content-less message under concrete configurations, and a
content-less message in the Formatter. -/
theorem malformed_message_handling_witness :
    rwStep cfgOk ⟨none, some "hi"⟩ = (⟨none, some "hi"⟩, [], none) ∧
    eligibleMsg cfgOk ⟨some "user", none⟩
      = (some "user" == some cfgOk.target_role
          && cfgOk.should_process_fn "") ∧
    eligibleMsg cfgFail ⟨some "user", none⟩ = true ∧
    rwStep cfgFail ⟨some "user", none⟩
      = (⟨some "user", none⟩, [], some "KeyError: content") ∧
    (∃ e, FormatPlaintextChatTranscript.processItem
        [("messages", Value.vMsgs [⟨some "user", none⟩])] = Except.error e) :=
  ⟨malformed_message_handling.1 cfgOk ⟨none, some "hi"⟩ rfl,
    malformed_message_handling.2.1 cfgOk ⟨some "user", none⟩ rfl,
    rfl,
    malformed_message_handling.2.2.1 cfgFail ⟨some "user", none⟩ rfl rfl,
    malformed_message_handling.2.2.2.2
      [("messages", Value.vMsgs [⟨some "user", none⟩])] [⟨some "user", none⟩]
      rfl ⟨⟨some "user", none⟩, by simp, Or.inr rfl⟩⟩

end DSL
